import Mathlib

/-!
Shallow embedding of the encircled-energy engine of `prysm/psf.py` and the
through-focus trace utilities of `prysm/mtf_utils.py`.

Modelling conventions:
* Python floats are modelled as exact rationals (`ℚ`).
* External numerical primitives (scipy `j0`/`j1`, the constant `pi`) are
  abstract parameters, as the specification treats them as pre-existing
  numerical primitives outside the core.
* The per-instance dictionary `self._ee` (insertion-ordered, exact numeric
  keys) is modelled as an association list that is appended to on a miss.
* Fallible code returns `Except PyError`.
-/

namespace Prysm

/-- Python exception kinds raised by the modelled code paths. -/
inductive PyError
  | valueError : String → PyError
  | typeError : String → PyError
  | indexError : String → PyError
  | axisError : String → PyError
deriving DecidableEq

/-! ## Encircled energy engine (`prysm/psf.py`) -/

/-- `_encircled_energy_core(mtf_data, radius, nu_p, dx, dy)` from `psf.py`:
`integration_fourier = special.j1(2 * e.pi * radius * nu_p) / nu_p`,
`dat = mtf_data * integration_fourier`, result `radius * dat.sum() * dx * dy`.
The 2-D arrays are modelled flattened; `j1` and `pi` are parameters. -/
def encircled_energy_core (j1 : ℚ → ℚ) (pi : ℚ) (mtf_data : List ℚ)
    (radius : ℚ) (nu_p : List ℚ) (dx dy : ℚ) : ℚ :=
  radius * (List.zipWith (fun m nu => m * (j1 (2 * pi * radius * nu) / nu)) mtf_data nu_p).sum
    * dx * dy

/-- The zero guard `self._nu_p[self._nu_p == 0] = 1e-99` from
`PSF.encircled_energy`: exact zeros of the radial-frequency array are replaced
by a negligible epsilon (modelled by the exact rational `1 / 10 ^ 99`; only its
being nonzero and tiny matters). -/
def guardNu (nu : List ℚ) : List ℚ :=
  nu.map (fun v => if v = 0 then 1 / 10 ^ 99 else v)

/-- State owned by one `PSF` instance that `encircled_energy` reads and
writes: the (flattened) MTF data, the guarded radial frequency array, the two
frequency spacings, and the memoization dictionary `self._ee` as an
insertion-ordered association list from radius to energy. -/
structure PSFState where
  mtf : List ℚ
  nu_p : List ℚ
  dnx : ℚ
  dny : ℚ
  ee : List (ℚ × ℚ)
deriving DecidableEq

/-- Dictionary lookup `self._ee[radius]` / membership `radius in self._ee`:
first (unique, in an actual dict) binding of the exact numeric key. -/
def eeLookup : List (ℚ × ℚ) → ℚ → Option ℚ
  | [], _ => none
  | (k, v) :: rest, r => if k = r then some v else eeLookup rest r

/-- The scalar branch of `PSF.encircled_energy(radius)`: on a cache miss,
compute `_encircled_energy_core(self._mtf.data, radius / 1e3, self._nu_p,
self._dnx, self._dny)` and store it under the exact key `radius`; on a hit,
return the cached value.  Returns the value together with the updated state. -/
def encircled_energy_scalar (j1 : ℚ → ℚ) (pi : ℚ) (s : PSFState) (radius : ℚ) :
    ℚ × PSFState :=
  match eeLookup s.ee radius with
  | some v => (v, s)
  | none =>
    let v := encircled_energy_core j1 pi s.mtf (radius / 1000) s.nu_p s.dnx s.dny
    (v, { s with ee := s.ee ++ [(radius, v)] })

/-- The iterable branch of `PSF.encircled_energy(radius)`: loop over the radii
in order, reusing or filling the cache, and collect one output per radius. -/
def encircled_energy_vector (j1 : ℚ → ℚ) (pi : ℚ) (s : PSFState) :
    List ℚ → List ℚ × PSFState
  | [] => ([], s)
  | r :: rest =>
    let p := encircled_energy_scalar j1 pi s r
    let q := encircled_energy_vector j1 pi p.2 rest
    (p.1 :: q.1, q.2)

/-- Modelled from the spec: the result the specification prescribes for one
radius, `r_converted * sum(mtf_field * J1(2*pi*r_converted*nu_p) / nu_p) * dnx
* dny` with `r_converted` the external micron radius divided by 1000. -/
def encircled_energy_spec (j1 : ℚ → ℚ) (pi : ℚ) (mtf_data nu_p : List ℚ)
    (dnx dny r_um : ℚ) : ℚ :=
  let r_conv := r_um / 1000
  r_conv * (List.zipWith (fun m nu => m * j1 (2 * pi * r_conv * nu) / nu) mtf_data nu_p).sum
    * dnx * dny

/-- Outcome of `PSF.ee_radius(energy)`: either the exact-match short circuit
over the cache (`if energy in v: return k[v.index(energy)]`) or a fall-through
to the external golden-section minimizer of
`(self.encircled_energy(x) - energy) ** 2`. -/
inductive EERadiusOutcome
  | cached : ℚ → EERadiusOutcome
  | minimized : EERadiusOutcome
deriving DecidableEq

/-- The value-indexed search of `PSF.ee_radius`: `k, v = keys, values;
if energy in v: idx = v.index(energy); return k[idx]` — the key paired with
the first cached value equal to `energy`. -/
def eeRadiusLookup : List (ℚ × ℚ) → ℚ → Option ℚ
  | [], _ => none
  | (k, v) :: rest, energy => if v = energy then some k else eeRadiusLookup rest energy

/-- `PSF.ee_radius(energy)` up to the external minimizer: exact cache match
returns that radius directly, otherwise the golden-section minimizer runs. -/
def ee_radius (cache : List (ℚ × ℚ)) (energy : ℚ) : EERadiusOutcome :=
  match eeRadiusLookup cache energy with
  | some r => .cached r
  | none => .minimized

/-! ## Cache lemmas -/

theorem eeLookup_append_of_none {c : List (ℚ × ℚ)} {r v : ℚ}
    (h : eeLookup c r = none) : eeLookup (c ++ [(r, v)]) r = some v := by
  induction c with
  | nil => simp [eeLookup]
  | cons p rest ih =>
    obtain ⟨k, w⟩ := p
    by_cases hk : k = r
    · simp [eeLookup, hk] at h
    · simp [eeLookup, hk] at h ⊢
      exact ih h

theorem eeLookup_none_not_mem_keys {c : List (ℚ × ℚ)} {r : ℚ}
    (h : eeLookup c r = none) : r ∉ c.map Prod.fst := by
  induction c with
  | nil => simp
  | cons p rest ih =>
    obtain ⟨k, w⟩ := p
    by_cases hk : k = r
    · simp [eeLookup, hk] at h
    · simp [eeLookup, hk] at h
      simp [hk, ih h]
      intro hkr
      exact hk hkr.symm

theorem eeLookup_mem_pair {c : List (ℚ × ℚ)} {r v : ℚ}
    (h : eeLookup c r = some v) : (r, v) ∈ c := by
  induction c with
  | nil => simp [eeLookup] at h
  | cons p rest ih =>
    obtain ⟨k, w⟩ := p
    by_cases hk : k = r
    · simp [eeLookup, hk] at h
      subst hk h
      exact List.mem_cons_self _ _
    · simp [eeLookup, hk] at h
      exact List.mem_cons_of_mem _ (ih h)

/-- After a scalar call, the requested radius is cached with the returned
value. -/
theorem eeLookup_after_scalar (j1 : ℚ → ℚ) (pi : ℚ) (s : PSFState) (r : ℚ) :
    eeLookup ((encircled_energy_scalar j1 pi s r).2).ee r
      = some ((encircled_energy_scalar j1 pi s r).1) := by
  unfold encircled_energy_scalar
  cases h : eeLookup s.ee r with
  | some v => simp [h]
  | none => simpa [h] using eeLookup_append_of_none h

/-- After a scalar call, the pair (radius, returned value) is in the cache. -/
theorem scalar_pair_mem (j1 : ℚ → ℚ) (pi : ℚ) (s : PSFState) (r : ℚ) :
    (r, (encircled_energy_scalar j1 pi s r).1) ∈ ((encircled_energy_scalar j1 pi s r).2).ee :=
  eeLookup_mem_pair (eeLookup_after_scalar j1 pi s r)

/-- Exact-match lookup by value: with pairwise-distinct cached energies, the
search of `ee_radius` finds exactly the key of the matching pair. -/
theorem eeRadiusLookup_of_mem {c : List (ℚ × ℚ)} {r en : ℚ}
    (hnd : (c.map Prod.snd).Nodup) (hmem : (r, en) ∈ c) :
    eeRadiusLookup c en = some r := by
  induction c with
  | nil => simp at hmem
  | cons p rest ih =>
    obtain ⟨k, w⟩ := p
    simp only [List.map_cons, List.nodup_cons] at hnd
    rcases List.mem_cons.mp hmem with heq | htl
    · have hk : k = r := (Prod.ext_iff.mp heq).1.symm
      have hw : w = en := (Prod.ext_iff.mp heq).2.symm
      subst hk
      subst hw
      simp [eeRadiusLookup]
    · have hwne : w ≠ en := by
        intro hcontra
        subst hcontra
        exact hnd.1 (List.mem_map_of_mem Prod.snd htl)
      simp [eeRadiusLookup, hwne]
      exact ih hnd.2 htl

/-! ## Claim theorems for the encircled energy engine -/

/-- C1: on a fresh PSF state (empty cache, guarded radial frequencies), the
scalar `encircled_energy` call returns exactly the spec formula
`r_converted * sum(mtf * J1(2*pi*r_converted*nu_p)/nu_p) * dnx * dny` with
`r_converted = radius / 1000`, and the epsilon guard leaves no zero entry in
`nu_p`, so every elementwise quotient has a nonzero denominator. -/
theorem encircled_energy_formula (j1 : ℚ → ℚ) (pi : ℚ) (mtf nu : List ℚ)
    (dnx dny r : ℚ) :
    (encircled_energy_scalar j1 pi (PSFState.mk mtf (guardNu nu) dnx dny []) r).1
      = encircled_energy_spec j1 pi mtf (guardNu nu) dnx dny r
    ∧ ∀ v ∈ guardNu nu, v ≠ 0 := by
  constructor
  · simp only [encircled_energy_scalar, eeLookup, encircled_energy_core,
      encircled_energy_spec, mul_div_assoc]
  · intro v hv
    simp only [guardNu, List.mem_map] at hv
    obtain ⟨w, _, hw⟩ := hv
    rw [← hw]
    by_cases hz : w = 0 <;> simp [hz]

theorem encircled_energy_vector_length (j1 : ℚ → ℚ) (pi : ℚ) (rs : List ℚ) :
    ∀ s : PSFState, (encircled_energy_vector j1 pi s rs).1.length = rs.length := by
  induction rs with
  | nil => intro s; rfl
  | cons r rest ih => intro s; simp [encircled_energy_vector, ih]

/-- A second request for the exact same radius returns the cached value and
leaves the cache unchanged. -/
theorem scalar_idempotent (j1 : ℚ → ℚ) (pi : ℚ) (s : PSFState) (r : ℚ) :
    encircled_energy_scalar j1 pi ((encircled_energy_scalar j1 pi s r).2) r
      = ((encircled_energy_scalar j1 pi s r).1, (encircled_energy_scalar j1 pi s r).2) := by
  cases h : eeLookup s.ee r with
  | some v => simp [encircled_energy_scalar, h]
  | none =>
    have h2 := eeLookup_append_of_none
      (v := encircled_energy_core j1 pi s.mtf (r / 1000) s.nu_p s.dnx s.dny) h
    simp [encircled_energy_scalar, h, h2]

/-- The cache is append-only: one call only ever adds entries at the end. -/
theorem scalar_cache_grows (j1 : ℚ → ℚ) (pi : ℚ) (s : PSFState) (r : ℚ) :
    ∃ t, ((encircled_energy_scalar j1 pi s r).2).ee = s.ee ++ t := by
  cases h : eeLookup s.ee r with
  | some v =>
    refine ⟨[], ?_⟩
    simp [encircled_energy_scalar, h]
  | none =>
    refine ⟨[(r, encircled_energy_core j1 pi s.mtf (r / 1000) s.nu_p s.dnx s.dny)], ?_⟩
    simp [encircled_energy_scalar, h]

/-- Distinctness of the cached radii is preserved: at most one entry per
exact radius value. -/
theorem scalar_keys_nodup (j1 : ℚ → ℚ) (pi : ℚ) (s : PSFState) (r : ℚ)
    (hnd : (s.ee.map Prod.fst).Nodup) :
    (((encircled_energy_scalar j1 pi s r).2).ee.map Prod.fst).Nodup := by
  cases h : eeLookup s.ee r with
  | some v => simpa [encircled_energy_scalar, h] using hnd
  | none =>
    have hnm := eeLookup_none_not_mem_keys h
    simp only [encircled_energy_scalar, h, List.map_append, List.map_cons, List.map_nil]
    rw [List.nodup_append]
    refine ⟨hnd, List.nodup_singleton r, ?_⟩
    intro a ha hb
    simp only [List.mem_singleton] at hb
    subst hb
    exact hnm ha

/-- C6: the iterable branch returns one value per requested radius in input
order; a repeated request for the same exact radius returns the cached value
with the cache unchanged; the cache only ever grows by appending; and with
pairwise-distinct cached radii it stays one entry per distinct radius. -/
theorem encircled_energy_cache_behavior (j1 : ℚ → ℚ) (pi : ℚ) (s : PSFState)
    (r : ℚ) (rs : List ℚ) (hnd : (s.ee.map Prod.fst).Nodup) :
    (encircled_energy_vector j1 pi s rs).1.length = rs.length
    ∧ encircled_energy_scalar j1 pi ((encircled_energy_scalar j1 pi s r).2) r
        = ((encircled_energy_scalar j1 pi s r).1, (encircled_energy_scalar j1 pi s r).2)
    ∧ (∃ t, ((encircled_energy_scalar j1 pi s r).2).ee = s.ee ++ t)
    ∧ (((encircled_energy_scalar j1 pi s r).2).ee.map Prod.fst).Nodup :=
  ⟨encircled_energy_vector_length j1 pi rs s, scalar_idempotent j1 pi s r,
    scalar_cache_grows j1 pi s r, scalar_keys_nodup j1 pi s r hnd⟩

/-- C4: after `encircled_energy(r0)` caches its result, `ee_radius` applied to
exactly that energy takes the exact-match short circuit and returns `r0`
itself, never reaching the external minimizer, provided the cached energies
are pairwise distinct. -/
theorem ee_radius_roundtrip (j1 : ℚ → ℚ) (pi : ℚ) (s : PSFState) (r0 : ℚ)
    (hnd : ((((encircled_energy_scalar j1 pi s r0).2).ee).map Prod.snd).Nodup) :
    ee_radius ((encircled_energy_scalar j1 pi s r0).2).ee
      ((encircled_energy_scalar j1 pi s r0).1) = EERadiusOutcome.cached r0 := by
  have hm := scalar_pair_mem j1 pi s r0
  unfold ee_radius
  rw [eeRadiusLookup_of_mem hnd hm]

/-- C10: a zero radius annihilates the core product, so `encircled_energy(0)`
returns exactly 0 and memoizes the entry `(0, 0)` like any other radius. -/
theorem encircled_energy_zero_radius (j1 : ℚ → ℚ) (pi : ℚ) (s : PSFState)
    (h : eeLookup s.ee 0 = none) :
    (encircled_energy_scalar j1 pi s 0).1 = 0
    ∧ ((encircled_energy_scalar j1 pi s 0).2).ee = s.ee ++ [(0, 0)] := by
  constructor <;> simp [encircled_energy_scalar, h, encircled_energy_core]

/-! ## Concrete inputs used by the witnesses -/

/-- A concrete stand-in for the external Bessel routine in witnesses. -/
def j1W : ℚ → ℚ := fun x => x

/-- A fresh concrete PSF state with an empty cache. -/
def psfW : PSFState := ⟨[1], [1], 1, 1, []⟩

theorem encircled_energy_cache_behavior_witness :
    (psfW.ee.map Prod.fst).Nodup
    ∧ ((encircled_energy_vector j1W 3 psfW [1, 2, 1]).1.length = [1, 2, 1].length
      ∧ encircled_energy_scalar j1W 3 ((encircled_energy_scalar j1W 3 psfW 2).2) 2
          = ((encircled_energy_scalar j1W 3 psfW 2).1, (encircled_energy_scalar j1W 3 psfW 2).2)
      ∧ (∃ t, ((encircled_energy_scalar j1W 3 psfW 2).2).ee = psfW.ee ++ t)
      ∧ (((encircled_energy_scalar j1W 3 psfW 2).2).ee.map Prod.fst).Nodup) :=
  ⟨by decide, encircled_energy_cache_behavior j1W 3 psfW 2 [1, 2, 1] (by decide)⟩

theorem ee_radius_roundtrip_witness :
    ((((encircled_energy_scalar j1W 3 psfW 1).2).ee).map Prod.snd).Nodup
    ∧ ee_radius ((encircled_energy_scalar j1W 3 psfW 1).2).ee
        ((encircled_energy_scalar j1W 3 psfW 1).1) = EERadiusOutcome.cached 1 :=
  ⟨by decide, ee_radius_roundtrip j1W 3 psfW 1 (by decide)⟩

theorem encircled_energy_zero_radius_witness :
    eeLookup psfW.ee 0 = none
    ∧ ((encircled_energy_scalar j1W 3 psfW 0).1 = 0
      ∧ ((encircled_energy_scalar j1W 3 psfW 0).2).ee = psfW.ee ++ [(0, 0)]) :=
  ⟨by decide, encircled_energy_zero_radius j1W 3 psfW (by decide)⟩

/-! ## Diffraction-limited analytic encircled energy (`prysm/psf.py`) -/

/-- `_analytical_encircled_energy(fno, wavelength, points)` from `psf.py`:
`p = points * e.pi / fno / wavelength; return 1 - special.j0(p)**2 -
special.j1(p)**2` — a pure closed form, no numerical integral.  `j0`, `j1`
and `pi` are external primitives, passed as parameters. -/
def analytical_encircled_energy (j0 j1 : ℚ → ℚ) (pi fno wavelength points : ℚ) : ℚ :=
  let p := points * pi / fno / wavelength
  1 - j0 p ^ 2 - j1 p ^ 2

/-- Modelled from the spec: the closed form `1 − J0(p)² − J1(p)²` with
`p = points·π/(fno·wavelength)`. -/
def analytical_ee_spec (j0 j1 : ℚ → ℚ) (pi fno wavelength points : ℚ) : ℚ :=
  1 - j0 (points * pi / (fno * wavelength)) ^ 2 - j1 (points * pi / (fno * wavelength)) ^ 2

/-- The objective minimized by `_inverse_analytic_encircled_energy` before it
hands off to the external golden-section minimizer:
`(_analytical_encircled_energy(fno, wavelength, x) - energy) ** 2`. -/
def inverse_analytic_objective (j0 j1 : ℚ → ℚ) (pi fno wavelength energy x : ℚ) : ℚ :=
  (analytical_encircled_energy j0 j1 pi fno wavelength x - energy) ^ 2

theorem analytical_encircled_energy_eq_spec (j0 j1 : ℚ → ℚ)
    (pi fno wavelength points : ℚ) :
    analytical_encircled_energy j0 j1 pi fno wavelength points
      = analytical_ee_spec j0 j1 pi fno wavelength points := by
  unfold analytical_encircled_energy analytical_ee_spec
  rw [div_div]

/-- C5: the diffraction-limited encircled energy is exactly the closed form
`1 - J0(p)^2 - J1(p)^2` with `p = points*pi/(fno*wavelength)`; the inversion
minimizes exactly the squared error of that same closed form; and evaluating
at `points = 0` returns 0 exactly (using `J0(0) = 1`, `J1(0) = 0`). -/
theorem analytical_ee_props (j0 j1 : ℚ → ℚ) (pi fno wavelength energy x : ℚ)
    (h0 : j0 0 = 1) (h1 : j1 0 = 0) (_hf : fno ≠ 0) (_hw : wavelength ≠ 0) :
    analytical_encircled_energy j0 j1 pi fno wavelength x
      = analytical_ee_spec j0 j1 pi fno wavelength x
    ∧ inverse_analytic_objective j0 j1 pi fno wavelength energy x
      = (analytical_ee_spec j0 j1 pi fno wavelength x - energy) ^ 2
    ∧ analytical_encircled_energy j0 j1 pi fno wavelength 0 = 0 := by
  refine ⟨analytical_encircled_energy_eq_spec j0 j1 pi fno wavelength x, ?_, ?_⟩
  · unfold inverse_analytic_objective
    rw [analytical_encircled_energy_eq_spec]
  · unfold analytical_encircled_energy
    simp [h0, h1]

theorem analytical_ee_props_witness :
    ((fun _ : ℚ => (1 : ℚ)) 0 = 1) ∧ ((fun _ : ℚ => (0 : ℚ)) 0 = 0)
    ∧ ((4 : ℚ) ≠ 0) ∧ ((1 / 2 : ℚ) ≠ 0)
    ∧ (analytical_encircled_energy (fun _ => 1) (fun _ => 0) 3 4 (1 / 2) 2
        = analytical_ee_spec (fun _ => 1) (fun _ => 0) 3 4 (1 / 2) 2
      ∧ inverse_analytic_objective (fun _ => 1) (fun _ => 0) 3 4 (1 / 2) (1 / 2) 2
        = (analytical_ee_spec (fun _ => 1) (fun _ => 0) 3 4 (1 / 2) 2 - 1 / 2) ^ 2
      ∧ analytical_encircled_energy (fun _ => 1) (fun _ => 0) 3 4 (1 / 2) 0 = 0) :=
  ⟨rfl, rfl, by norm_num, by norm_num,
    analytical_ee_props (fun _ => 1) (fun _ => 0) 3 4 (1 / 2) (1 / 2) 2 rfl rfl
      (by norm_num) (by norm_num)⟩

/-! ## MTF vs Field vs Focus cube (`prysm/mtf_utils.py`) -/

/-- `MTFvFvF`: a 3-D array of MTF data in shape (focus, field, freq) together
with its three coordinate axes.  `data` is indexed `data[focus][field][freq]`.
The azimuth tag plays no role in the modelled computations. -/
structure MTFvFvF where
  data : List (List (List ℚ))
  focus : List ℚ
  field : List ℚ
  freq : List ℚ
deriving DecidableEq

/-- Number of focus planes (`data.shape[0]`). -/
def nfocus (cube : MTFvFvF) : ℕ := cube.data.length

/-- Number of field samples (`data.shape[1]`). -/
def nfield (cube : MTFvFvF) : ℕ := (cube.data.headD []).length

/-- Number of frequency samples (`data.shape[2]`). -/
def nfreq (cube : MTFvFvF) : ℕ := ((cube.data.headD []).headD []).length

/-- The through-focus column `data[:, i, j]`. -/
def focusColumn (cube : MTFvFvF) (i j : ℕ) : List ℚ :=
  cube.data.map (fun plane => (plane.getD i []).getD j 0)

/-- `numpy.argmax` on a 1-D array: index of the first occurrence of the
maximum value (the running best is replaced only on a strict increase). -/
def argmaxGo : List ℚ → ℕ → ℕ → ℚ → ℕ
  | [], _, best, _ => best
  | x :: xs, i, best, bv =>
    if bv < x then argmaxGo xs (i + 1) i x else argmaxGo xs (i + 1) best bv

def argmaxIdx : List ℚ → ℕ
  | [] => 0
  | x :: xs => argmaxGo xs 1 0 x

/-- `numpy.argmin` on a 1-D array: index of the first minimum. -/
def argminGo : List ℚ → ℕ → ℕ → ℚ → ℕ
  | [], _, best, _ => best
  | x :: xs, i, best, bv =>
    if x < bv then argminGo xs (i + 1) i x else argminGo xs (i + 1) best bv

def argminIdx : List ℚ → ℕ
  | [] => 0
  | x :: xs => argminGo xs 1 0 x

/-- `numpy.ndarray.max` over a 1-D array (0 on the empty array only as a
placeholder; the modelled call sites never reach that case). -/
def listMax : List ℚ → ℚ
  | [] => 0
  | x :: xs => xs.foldl max x

/-- `numpy.ndarray.mean` of a 1-D array. -/
def listMean (l : List ℚ) : ℚ := l.sum / (l.length : ℚ)

/-- `numpy.searchsorted(l, v)` with the default left side: the first index at
which `v` could be inserted keeping `l` sorted. -/
def searchsorted (l : List ℚ) (v : ℚ) : ℕ :=
  (l.takeWhile (fun x => decide (x < v))).length

/-- `ndarray.argmin(axis=k)` called on a 1-D array: numpy only accepts axis 0
(or -1) for one dimension; `axis=1` raises an AxisError.  This is exactly what
`abs(self.data[:, idx_axis, :].max(axis=0) - 0.5).argmin(axis=1)` does in
`MTFvFvF.trace_focus`, since the indexed-and-reduced array is 1-D. -/
def argminAxisOn1d (l : List ℚ) (axis : ℕ) : Except PyError ℕ :=
  if axis = 0 then .ok (argminIdx l)
  else .error (.axisError "axis 1 is out of bounds for array of dimension 1")

/-- The fractional-index resolution of the `avg` branch (lines 213-219 of
`mtf_utils.py`): `li, ri = floor(idx), ceil(idx); lf, rf = focus[li],
focus[ri]; focus_out = lf + (rf - lf) * (idx % 1)`.  The `floor`/`ceil`
aliases come from `prysm.mathops` (not part of the analyzed sources) and are
modelled from the spec as integer floor/ceiling; `% 1` is the fractional
part. -/
def fracInterp (focus : List ℚ) (idx : ℚ) : ℚ :=
  let li := (Int.floor idx).toNat
  let ri := (Int.ceil idx).toNat
  let lf := focus.getD li 0
  let rf := focus.getD ri 0
  lf + (rf - lf) * Int.fract idx

/-- The body of the `avg`/`average` branch of `MTFvFvF.trace_focus`, given the
first frequency `freq0` (already read from `self.freq[0]`):
`argmax` over focus for every (field, freq), drop the zero-frequency column
when `freq0 == 0`, average over frequency, then interpolate fractional
indices onto the focus axis. -/
def trace_focus_avg (cube : MTFvFvF) (freq0 : ℚ) : List ℚ :=
  let am := (List.range (nfield cube)).map
    (fun i => (List.range (nfreq cube)).map (fun j => argmaxIdx (focusColumn cube i j)))
  let rows := if freq0 = 0 then am.map (fun row => row.drop 1) else am
  let avg_idxs := rows.map (fun row => listMean (row.map (fun n : ℕ => (n : ℚ))))
  avg_idxs.map (fracInterp cube.focus)

/-- Python `str.lower()` on the algorithm name: character-wise ASCII
lowercasing. -/
def pyLower (s : String) : String := String.mk (s.data.map Char.toLower)

/-- `MTFvFvF.trace_focus(algorithm)`.  The `'0.5'` branch computes the on-axis
field index, reduces `data[:, idx_axis, :]` over focus to a 1-D per-frequency
peak array, and then calls `.argmin(axis=1)` on that 1-D array — which raises
a numpy AxisError; the `.ok` continuation after it models the code as written
but is unreachable.  The `avg`/`average` comparison happens on
`algorithm.lower()`, and any other name raises
`ValueError('0.5 is only algorithm supported')`. -/
def trace_focus (cube : MTFvFvF) (algorithm : String) :
    Except PyError (List ℚ × List ℚ) :=
  if algorithm = "0.5" then
    let idx_axis := searchsorted cube.field 0
    if cube.data = [] then
      .error (.valueError "zero-size array to reduction operation maximum which has no identity")
    else if nfield cube ≤ idx_axis then
      .error (.indexError "index is out of bounds for axis 1")
    else
      let peaks := (List.range (nfreq cube)).map (fun j => listMax (focusColumn cube idx_axis j))
      match argminAxisOn1d (peaks.map (fun p => |p - 1 / 2|)) 1 with
      | .error e => .error e
      | .ok idx_freq =>
        let focus_idx := (List.range (nfield cube)).map
          (fun i => argmaxIdx (focusColumn cube i idx_freq))
        .ok (focus_idx.map (fun fi => cube.focus.getD fi 0), cube.field)
  else if pyLower algorithm = "avg" ∨ pyLower algorithm = "average" then
    match cube.freq with
    | [] => .error (.indexError "index 0 is out of bounds for axis 0 with size 0")
    | f0 :: _ => .ok (trace_focus_avg cube f0, cube.field)
  else
    .error (.valueError "0.5 is only algorithm supported")

/-- Modelled from the spec: the `avg` algorithm as the specification words it
— per field index, the focus index of maximum MTF per frequency (excluding
the frequency channel at index 0 when the first frequency is zero), averaged
across frequencies into one fractional index, resolved by
`focus[floor(idx)] + (focus[ceil(idx)] - focus[floor(idx)]) * (idx mod 1)`. -/
def trace_focus_avg_spec (cube : MTFvFvF) (freq0 : ℚ) : List ℚ :=
  (List.range (nfield cube)).map (fun i =>
    let idxs := (List.range (nfreq cube)).map (fun j => argmaxIdx (focusColumn cube i j))
    let kept := if freq0 = 0 then idxs.drop 1 else idxs
    let idx := listMean (kept.map (fun n : ℕ => (n : ℚ)))
    let lf := cube.focus.getD (Int.floor idx).toNat 0
    let rf := cube.focus.getD (Int.ceil idx).toNat 0
    lf + (rf - lf) * Int.fract idx)

theorem trace_focus_avg_eq_spec (cube : MTFvFvF) (freq0 : ℚ) :
    trace_focus_avg cube freq0 = trace_focus_avg_spec cube freq0 := by
  unfold trace_focus_avg trace_focus_avg_spec fracInterp
  by_cases hz : freq0 = 0 <;>
    simp only [hz, if_true, if_false, List.map_map] <;>
    · apply List.map_congr_left
      intro i _
      simp

theorem listMean_replicate (m : ℕ) (k : ℚ) (hm : m ≠ 0) :
    listMean (List.replicate m k) = k := by
  unfold listMean
  rw [List.sum_replicate, List.length_replicate, nsmul_eq_mul]
  exact mul_div_cancel_left₀ k (Nat.cast_ne_zero.mpr hm)

/-- C2: for every cube with a nonempty frequency axis (Python reads
`self.freq[0]`) and either algorithm name `'avg'` or `'average'`,
`trace_focus` returns exactly the spec-side formula — per-field mean of
per-frequency argmax focus indices, excluding the zero-frequency channel when
`freq[0] == 0`, resolved by the linear interpolation
`focus[floor(idx)] + (focus[ceil(idx)] - focus[floor(idx)]) * (idx mod 1)` —
paired with the field axis; and in particular, whenever the MTF peaks at the
same on-sample focus index `k` for every field and frequency, that formula
gives exactly the focus coordinate at `k` for every field point. -/
theorem trace_focus_avg_correct (cube : MTFvFvF) (alg : String) (f0 : ℚ) (rest : List ℚ)
    (halg : alg = "avg" ∨ alg = "average")
    (hfreq : cube.freq = f0 :: rest) :
    trace_focus cube alg = Except.ok (trace_focus_avg_spec cube f0, cube.field)
    ∧ ∀ k : ℕ,
        (∀ i < nfield cube, ∀ j < nfreq cube, argmaxIdx (focusColumn cube i j) = k) →
        (if f0 = 0 then 2 ≤ nfreq cube else 1 ≤ nfreq cube) →
        trace_focus_avg_spec cube f0 = List.replicate (nfield cube) (cube.focus.getD k 0) := by
  constructor
  · rcases halg with h | h <;> subst h <;>
    · unfold trace_focus
      rw [if_neg (by decide), if_pos (by decide), hfreq]
      simp only [trace_focus_avg_eq_spec]
  · intro k hk hn
    refine List.eq_replicate_iff.mpr ⟨by simp [trace_focus_avg_spec], ?_⟩
    intro x hx
    unfold trace_focus_avg_spec at hx
    obtain ⟨i, hi, rfl⟩ := List.mem_map.mp hx
    have hi2 : i < nfield cube := List.mem_range.mp hi
    have hidxs : (List.range (nfreq cube)).map (fun j => argmaxIdx (focusColumn cube i j))
        = List.replicate (nfreq cube) k := by
      refine List.eq_replicate_iff.mpr ⟨by simp, ?_⟩
      intro b hb
      obtain ⟨j, hj, rfl⟩ := List.mem_map.mp hb
      exact hk i hi2 j (List.mem_range.mp hj)
    simp only [hidxs]
    by_cases hz : f0 = 0
    · rw [if_pos hz] at hn
      simp only [if_pos hz, List.drop_replicate, List.map_replicate]
      rw [listMean_replicate _ _ (by omega)]
      simp
    · rw [if_neg hz] at hn
      simp only [if_neg hz, List.map_replicate]
      rw [listMean_replicate _ _ (by omega)]
      simp

/-- The concrete cube of the spec example: focus `[-10,-5,0,5,10]` μm, two
field points, a single nonzero frequency, MTF peaking exactly at focus index
2 for every field and frequency. -/
def cubeW : MTFvFvF :=
  ⟨[[[1], [1]], [[5], [5]], [[9], [9]], [[5], [5]], [[1], [1]]],
   [-10, -5, 0, 5, 10], [0, 1], [10]⟩

theorem trace_focus_avg_correct_witness :
    ("avg" = "avg" ∨ "avg" = "average")
    ∧ cubeW.freq = (10 : ℚ) :: []
    ∧ (trace_focus cubeW "avg" = Except.ok (trace_focus_avg_spec cubeW 10, cubeW.field)
      ∧ ∀ k : ℕ,
          (∀ i < nfield cubeW, ∀ j < nfreq cubeW, argmaxIdx (focusColumn cubeW i j) = k) →
          (if (10 : ℚ) = 0 then 2 ≤ nfreq cubeW else 1 ≤ nfreq cubeW) →
          trace_focus_avg_spec cubeW 10 = List.replicate (nfield cubeW) (cubeW.focus.getD k 0))
    ∧ trace_focus_avg_spec cubeW 10 = List.replicate (nfield cubeW) (cubeW.focus.getD 2 0) :=
  ⟨Or.inl rfl, rfl, trace_focus_avg_correct cubeW "avg" 10 [] (Or.inl rfl) rfl,
    (trace_focus_avg_correct cubeW "avg" 10 [] (Or.inl rfl) rfl).2 2 (by decide) (by decide)⟩

/-- C3 (code bug): the `'0.5'` branch can never return a focus trace.
`self.data[:, idx_axis, :].max(axis=0)` is a 1-D array (one peak per
frequency), and the subsequent `.argmin(axis=1)` on that 1-D array raises a
numpy AxisError for every cube whose data is nonempty and whose on-axis field
index is in bounds (the code paths the claim describes sit after this call
and are unreachable). -/
theorem trace_focus_half_crashes (cube : MTFvFvF)
    (hdata : cube.data ≠ [])
    (hax : searchsorted cube.field 0 < nfield cube) :
    trace_focus cube "0.5"
      = Except.error (PyError.axisError "axis 1 is out of bounds for array of dimension 1") := by
  unfold trace_focus
  rw [if_pos rfl, if_neg hdata, if_neg (by omega)]
  rfl

/-- A small concrete cube with a single focus, field and frequency sample. -/
def cubeHalfW : MTFvFvF := ⟨[[[5]]], [0], [0], [10]⟩

theorem trace_focus_half_crashes_witness :
    cubeHalfW.data ≠ []
    ∧ searchsorted cubeHalfW.field 0 < nfield cubeHalfW
    ∧ trace_focus cubeHalfW "0.5"
        = Except.error (PyError.axisError "axis 1 is out of bounds for array of dimension 1") :=
  ⟨by decide, by decide, trace_focus_half_crashes cubeHalfW (by decide) (by decide)⟩

/-- C7 counterexample: `'AVG'` lies outside the literal set
`{'0.5', 'avg', 'average'}`, yet `trace_focus` does not raise — the
`algorithm.lower()` comparison routes it into the average branch, which
returns a result. -/
theorem trace_focus_upper_avg_accepted :
    ("AVG" ∉ (["0.5", "avg", "average"] : List String))
    ∧ trace_focus cubeW "AVG" = Except.ok (trace_focus_avg cubeW 10, cubeW.field)
    ∧ trace_focus cubeW "AVG"
        ≠ Except.error (PyError.valueError "0.5 is only algorithm supported") := by
  have hok : trace_focus cubeW "AVG" = Except.ok (trace_focus_avg cubeW 10, cubeW.field) := by
    unfold trace_focus
    rw [if_neg (by decide), if_pos (by decide)]
    rfl
  refine ⟨by decide, hok, ?_⟩
  rw [hok]
  intro h
  exact Except.noConfusion h

/-- C7 (amended): an algorithm name other than `'0.5'` whose lowercase form
is neither `'avg'` nor `'average'` raises
`ValueError('0.5 is only algorithm supported')`, with no partial result. -/
theorem trace_focus_invalid_algorithm (cube : MTFvFvF) (alg : String)
    (h1 : alg ≠ "0.5") (h2 : pyLower alg ≠ "avg") (h3 : pyLower alg ≠ "average") :
    trace_focus cube alg
      = Except.error (PyError.valueError "0.5 is only algorithm supported") := by
  unfold trace_focus
  rw [if_neg h1, if_neg (not_or.mpr ⟨h2, h3⟩)]

theorem trace_focus_invalid_algorithm_witness :
    ("bogus" ≠ "0.5") ∧ (pyLower "bogus" ≠ "avg") ∧ (pyLower "bogus" ≠ "average")
    ∧ trace_focus cubeW "bogus"
        = Except.error (PyError.valueError "0.5 is only algorithm supported") :=
  ⟨by decide, by decide, by decide,
    trace_focus_invalid_algorithm cubeW "bogus" (by decide) (by decide) (by decide)⟩

/-! ## `PSF.plot_encircled_energy` argument validation (`prysm/psf.py`) -/

/-- A Python number as passed for `axlim`: the `is`-identity test against the
literal `0` distinguishes an int from a float of equal value. -/
inductive PyNum
  | int : ℤ → PyNum
  | float : ℚ → PyNum
deriving DecidableEq

/-- CPython `axlim is 0`: an int equal to 0 is the interned small-int object,
identical to the literal; a float — even exactly 0.0 — is a different object,
so the identity test is False for it. -/
def isLiteralZero : PyNum → Bool
  | .int n => n = 0
  | .float _ => false

def pyNumVal : PyNum → ℚ
  | .int n => (n : ℚ)
  | .float q => q

/-- What `plot_encircled_energy` does before handing off to the plotting
collaborator. -/
inductive PlotEEOutcome
  | raisesNoCacheError
  | raisesZeroAxlimError
  | plotsCachedValues
  | plotsLinspace (lo hi : ℚ) (npts : ℕ)
deriving DecidableEq

/-- The argument-validation prefix of `PSF.plot_encircled_energy(axlim,
npts)`: with no `axlim`, plot the cached values if any exist and raise
otherwise; with an `axlim`, `elif axlim is 0` raises, and any other value
proceeds to evaluate the encircled energy over `linspace(1e-5, axlim, npts)`
(the float value `1e-5` is modelled by the rational `1 / 100000`; only which
branch is taken matters here). -/
def plot_encircled_energy_setup (cacheSize : ℕ) (axlim : Option PyNum) (npts : ℕ) :
    PlotEEOutcome :=
  match axlim with
  | none => if cacheSize ≠ 0 then .plotsCachedValues else .raisesNoCacheError
  | some a =>
    if isLiteralZero a then .raisesZeroAxlimError
    else .plotsLinspace (1 / 100000) (pyNumVal a) npts

/-- C8 (code bug): the rejection of a zero axis limit is an identity test
against the int literal `0`, so the float `0.0` — an axis limit exactly equal
to 0 — is not rejected and the computation proceeds into the linspace branch;
the int `0` and the no-limit/empty-cache requests are rejected immediately. -/
theorem plot_ee_axlim_outcomes :
    plot_encircled_energy_setup 3 (some (PyNum.float 0)) 50
      = PlotEEOutcome.plotsLinspace (1 / 100000) 0 50
    ∧ plot_encircled_energy_setup 3 (some (PyNum.int 0)) 50
      = PlotEEOutcome.raisesZeroAxlimError
    ∧ plot_encircled_energy_setup 0 none 50 = PlotEEOutcome.raisesNoCacheError :=
  ⟨rfl, rfl, rfl⟩

/-! ## `MTFFFD.from_trioptics_files` return dispatch (`prysm/mtf_utils.py`) -/

/-- The return dispatch at the end of `MTFFFD.from_trioptics_files`: the pair
of interpolated tangential and sagittal objects is returned when
`ret == ('tan', 'sag')`; for any other `ret` the code executes
`raise NotImplemented('other returns not implemented')`, which calls the
non-callable `NotImplemented` singleton and therefore raises
`TypeError: NotImplementedType object is not callable` (not a
NotImplementedError, contrary to the docstring). -/
def from_trioptics_files_ret {α : Type} (ret : List String) (tanFFD sagFFD : α) :
    Except PyError (α × α) :=
  if ret = ["tan", "sag"] then .ok (tanFFD, sagFFD)
  else .error (.typeError "NotImplementedType object is not callable")

/-- C9 (code bug): `ret=('tan','sag')` returns the tangential/sagittal pair;
every other `ret` fails — but with a TypeError from calling the
`NotImplemented` singleton, not with the not-implemented error the claim and
the docstring describe. -/
theorem from_trioptics_ret_behavior {α : Type} (tanFFD sagFFD : α) (ret : List String)
    (h : ret ≠ ["tan", "sag"]) :
    from_trioptics_files_ret ["tan", "sag"] tanFFD sagFFD = Except.ok (tanFFD, sagFFD)
    ∧ from_trioptics_files_ret ret tanFFD sagFFD
      = Except.error (PyError.typeError "NotImplementedType object is not callable") := by
  constructor
  · simp [from_trioptics_files_ret]
  · simp [from_trioptics_files_ret, h]

theorem from_trioptics_ret_behavior_witness :
    ((["sag", "tan"] : List String) ≠ ["tan", "sag"])
    ∧ (from_trioptics_files_ret ["tan", "sag"] (0 : ℚ) 1 = Except.ok (0, 1)
      ∧ from_trioptics_files_ret ["sag", "tan"] (0 : ℚ) 1
        = Except.error (PyError.typeError "NotImplementedType object is not callable")) :=
  ⟨by decide, from_trioptics_ret_behavior (0 : ℚ) 1 ["sag", "tan"] (by decide)⟩

end Prysm
